import Mathlib

/-! Kinematic-fit harness of `ant/analysis/TestAPLCON.cc`

A shallow embedding of the particle parameterisation (`FitParticle::Make`,
`FitParticle::Smear`), of the three constraint lambdas registered with the
fitter (`EnergyMomentumBalance`, `RequireIM`, `VertexConstraint`) and of the
tagger-hit loop of `TestAPLCON::ProcessEvent`.

Conventions of the embedding.

* A C++ `double` is a real number.  The single place where the source can leave
  the reals, the unguarded `sqrt` in `Make`, is tracked separately by
  `MakeIEEE`.
* A `std::vector<double>` is a `List ℝ`; reading an index that does not exist
  (undefined behaviour in C++) yields `0`, and the theorems only speak about
  lists that have the indices which are read.
* A lambda that receives its argument by non-const reference returns the final
  value of that argument next to its result.
* Histograms are the lists of the values filled into them, newest last.
-/

open Real

namespace TestAPLCON

/-! ## ROOT value types -/

/-- A `TVector3`: three Cartesian components. -/
@[ext] structure TVector3 where
  X : ℝ
  Y : ℝ
  Z : ℝ

/-- A `TLorentzVector`: the spatial part and the time (energy) component. -/
@[ext] structure TLorentzVector where
  X : ℝ
  Y : ℝ
  Z : ℝ
  T : ℝ

namespace TLorentzVector

/-- The constructor `TLorentzVector(const TVector3&, Double_t)`. -/
def ofVect (v : TVector3) (t : ℝ) : TLorentzVector := ⟨v.X, v.Y, v.Z, t⟩

/-- The constructor call `TLorentzVector(0,0,0,0)`. -/
def zero : TLorentzVector := ⟨0, 0, 0, 0⟩

/-- Component-wise sum, `operator+` and `operator+=`. -/
def add (a b : TLorentzVector) : TLorentzVector :=
  ⟨a.X + b.X, a.Y + b.Y, a.Z + b.Z, a.T + b.T⟩

/-- Component-wise difference, `operator-=`. -/
def sub (a b : TLorentzVector) : TLorentzVector :=
  ⟨a.X - b.X, a.Y - b.Y, a.Z - b.Z, a.T - b.T⟩

/-- The energy accessor `E()`, the same component as `T()`. -/
def E (l : TLorentzVector) : ℝ := l.T

/-- The squared norm of the spatial part. -/
def P2 (l : TLorentzVector) : ℝ := l.X * l.X + l.Y * l.Y + l.Z * l.Z

/-- The Minkowski square `Mag2() = T*T - |p|^2`. -/
def Mag2 (l : TLorentzVector) : ℝ := l.T * l.T - l.P2

/-- The invariant mass `M()`: the signed root of `Mag2()`. -/
noncomputable def M (l : TLorentzVector) : ℝ :=
  if l.Mag2 < 0 then -Real.sqrt (-l.Mag2) else Real.sqrt l.Mag2

end TLorentzVector

/-- The two-argument arctangent of the C library: the principal argument of the
point `(x, y)`, in `(-π, π]`, and `0` at the origin. -/
noncomputable def atan2 (y x : ℝ) : ℝ := Complex.arg ⟨x, y⟩

/-- The ROOT setter `TVector3::SetMagThetaPhi(mag, theta, phi)`: it overwrites
all three components, so the vector it is called on does not matter. -/
noncomputable def SetMagThetaPhi (mag theta phi : ℝ) : TVector3 :=
  let amag := |mag|
  ⟨amag * Real.sin theta * Real.cos phi, amag * Real.sin theta * Real.sin phi,
    amag * Real.cos theta⟩

/-- The ROOT constant `TMath::DegToRad()`. -/
noncomputable def DegToRad : ℝ := Real.pi / 180

/-! ## Particle type database -/

/-- Modelled from the spec: `ParticleTypeDatabase::Photon.Mass()` is declared
outside the sources; photons are massless. -/
def PhotonMass : ℝ := 0

/-- Modelled from the spec: `ParticleTypeDatabase::Proton.Mass()` is declared
outside the sources; the proton target mass is 938.272046 MeV. -/
noncomputable def ProtonMass : ℝ := 938.272046

/-! ## `FitParticle::Make` -/

/-- The static `FitParticle::Make(EkThetaPhi, m)`. -/
noncomputable def Make (EkThetaPhi : List ℝ) (m : ℝ) : TLorentzVector :=
  let E := EkThetaPhi.getD 0 0 + m
  let p := Real.sqrt (E * E - m * m)
  let pv := SetMagThetaPhi p (EkThetaPhi.getD 1 0) (EkThetaPhi.getD 2 0)
  TLorentzVector.ofVect pv E

/-- What a call of `Make` can end in when `sqrt` is the IEEE function: the
ordinary 4-momentum, a 4-momentum whose energy is a number and whose three
momentum components are NaN, or a raised domain error. -/
inductive MakeOutcome where
  | regular (l : TLorentzVector)
  | nanMomentum (E : ℝ)
  | domainError

/-- The body of `Make` with the IEEE `sqrt`: a negative radicand gives NaN,
which `SetMagThetaPhi` multiplies into all three momentum components. The
source has no `throw` and no test on the radicand. -/
noncomputable def MakeIEEE (EkThetaPhi : List ℝ) (m : ℝ) : MakeOutcome :=
  let E := EkThetaPhi.getD 0 0 + m
  if E * E - m * m < 0 then MakeOutcome.nanMomentum E
  else MakeOutcome.regular (Make EkThetaPhi m)

/-! ## `FitParticle` -/

/-- The fit variables of one particle and their one-sigma uncertainties. -/
structure FitParticle where
  Ek : ℝ
  Theta : ℝ
  Phi : ℝ
  Ek_Sigma : ℝ
  Theta_Sigma : ℝ
  Phi_Sigma : ℝ

/-- Modelled from the spec: the conversion of a `FitParticle` to the
`vector<double>` that `Make` takes is declared in the header `TestAPLCON.h`,
which is not in the sources; a particle is the ordered tuple of its fit
variables. -/
def FitParticle.toVector (p : FitParticle) : List ℝ := [p.Ek, p.Theta, p.Phi]

/-- The transverse length `Perp()` of the spatial part. -/
noncomputable def TLorentzVector.Perp (l : TLorentzVector) : ℝ :=
  Real.sqrt (l.X * l.X + l.Y * l.Y)

/-- The polar angle `Theta()` of the spatial part, as ROOT computes it. -/
noncomputable def TLorentzVector.Theta (l : TLorentzVector) : ℝ :=
  if l.X = 0 ∧ l.Y = 0 ∧ l.Z = 0 then 0 else atan2 l.Perp l.Z

/-- The azimuth `Phi()` of the spatial part, as ROOT computes it. -/
noncomputable def TLorentzVector.Phi (l : TLorentzVector) : ℝ :=
  if l.X = 0 ∧ l.Y = 0 then 0 else atan2 l.Y l.X

/-- Modelled from the spec: `FitParticle::SetFromVector` is declared in the
header `TestAPLCON.h`, which is not in the sources. It is the spec's
`AssignFromTruth(particle, fourVector, mass)`: the inverse of `Make`, which
stores the kinetic energy (energy minus rest mass), the polar angle and the
azimuth of the 4-momentum and leaves the sigmas alone. -/
noncomputable def AssignFromTruth (particle : FitParticle) (fourVector : TLorentzVector)
    (mass : ℝ) : FitParticle :=
  { particle with
    Ek := fourVector.E - mass
    Theta := fourVector.Theta
    Phi := fourVector.Phi }

/-- `FitParticle::Smear()`. The process-wide `generator` is the state `g`;
`gauss mean sigma g` is one draw of `std::normal_distribution<double>(mean,
sigma)` from it together with the advanced generator. -/
noncomputable def Smear {G : Type} (gauss : ℝ → ℝ → G → ℝ × G) (p : FitParticle) (g : G) :
    FitParticle × G :=
  let Ek_Sigma := 0.02 * p.Ek * p.Ek ^ (-0.36 : ℝ)
  let Theta_Sigma := 2.5 * DegToRad
  let Phi_Sigma :=
    if p.Theta > 20 * DegToRad ∧ p.Theta < 160 * DegToRad then Theta_Sigma / Real.sin p.Theta
    else 1 * DegToRad
  let d_Ek := gauss 0 Ek_Sigma g
  let d_Theta := gauss 0 Theta_Sigma d_Ek.2
  let d_Phi := gauss 0 Phi_Sigma d_Theta.2
  ({ Ek := p.Ek + d_Ek.1, Theta := p.Theta + d_Theta.1, Phi := p.Phi + d_Phi.1,
     Ek_Sigma := Ek_Sigma, Theta_Sigma := Theta_Sigma, Phi_Sigma := Phi_Sigma }, d_Phi.2)

/-! ## Constraint lambdas of the constructor -/

/-- The loop shared by `FillIM` and `RequireIM`: starting from
`TLorentzVector(0,0,0,0)`, add `Make(p, Photon.Mass())` for every `p`. -/
noncomputable def SumPhotons (photons : List (List ℝ)) : TLorentzVector :=
  photons.foldl (fun sum p => sum.add (Make p PhotonMass)) TLorentzVector.zero

/-- The lambda `EnergyMomentumBalance`: the first particle is the beam photon,
the second the outgoing proton, the rest photons. -/
noncomputable def EnergyMomentumBalance (particles : List (List ℝ)) : List ℝ :=
  let target : TLorentzVector := ⟨0, 0, 0, ProtonMass⟩
  let diff := target.add (Make (particles.getD 0 []) PhotonMass)
  let diff := diff.sub (Make (particles.getD 1 []) ProtonMass)
  let diff := (particles.drop 2).foldl (fun d p => d.sub (Make p PhotonMass)) diff
  [diff.X, diff.Y, diff.Z, diff.T]

/-- The lambda `RequireIM`; the captured member `IM` is a parameter. -/
noncomputable def RequireIM (IM : ℝ) (photons : List (List ℝ)) : ℝ :=
  (SumPhotons photons).M - IM

/-- The constant `R` of `VertexConstraint`, the CB radius. -/
noncomputable def R : ℝ := 25.4

/-- The corrected angle `theta_p` computed in the loop of `VertexConstraint`. -/
noncomputable def theta_p (v_z theta : ℝ) : ℝ :=
  atan2 (R * Real.sin theta) (R * Real.cos theta - v_z)

/-- The range-for loop of `VertexConstraint` over `auto& p`: every element is
overwritten at index 1 and then added to `sum`. It returns the list as the loop
leaves it and the final `sum`. -/
noncomputable def VertexLoop (v_z : ℝ) :
    List (List ℝ) → TLorentzVector → List (List ℝ) × TLorentzVector
  | [], sum => ([], sum)
  | p :: rest, sum =>
    let theta := p.getD 1 0
    let p := p.set 1 (theta_p v_z theta)
    let sum := sum.add (Make p PhotonMass)
    let r := VertexLoop v_z rest sum
    (p :: r.1, r.2)

/-- The lambda `VertexConstraint`, whose parameter is the non-const reference
`vector<vector<double>>& photons`: the first component is the returned
residual, the second is the referenced list when the lambda returns. -/
noncomputable def VertexConstraint (IM : ℝ) (photons : List (List ℝ)) :
    ℝ × List (List ℝ) :=
  let v_z := (photons.getLastD []).getD 0 0
  let photons := photons.dropLast
  let r := VertexLoop v_z photons TLorentzVector.zero
  (r.2.M - IM, r.1)

/-- The sum of a list of 4-momenta, component by component. -/
def sumVectors : List TLorentzVector → TLorentzVector
  | [] => TLorentzVector.zero
  | v :: vs => v.add (sumVectors vs)

/-! ## The event loop `TestAPLCON::ProcessEvent` -/

/-- The particle types that `ProcessEvent` tells apart by comparison with
`ParticleTypeDatabase::Proton` and `ParticleTypeDatabase::Photon`. -/
inductive ParticleType where
  | Proton
  | Photon
  | Other
  deriving DecidableEq

/-- An entry of `event.MCTrue()`: its type and its 4-momentum. -/
structure MCParticle where
  type : ParticleType
  p4 : TLorentzVector

/-- An entry of `event.TaggerHits()`. -/
structure TaggerHit where
  PhotonEnergy : ℝ
  PhotonBeam : TLorentzVector

/-- The part of an `ant::Event` that `ProcessEvent` reads: the tracks as pairs
(cluster energy, veto energy), the printed type names of the identified
particles, and the number of identified particles per type name. -/
structure Event where
  Tracks : List (ℝ × ℝ)
  Particles : List String
  TaggerHits : List TaggerHit
  CBEenergySum : ℝ
  ParticleTypeCount : String → ℕ
  MCTrue : List MCParticle

/-- Modelled from the spec: `APLCON::Result_Status_t` is declared outside the
sources; a status is `Success` or one of the failure kinds. -/
inductive Result_Status_t where
  | Success
  | Failure (kind : ℕ)
  deriving DecidableEq

/-- Modelled from the spec: `APLCON::Result_Variable_t`, the value of a variable
before and after the fit and its pull. -/
structure Result_Variable_t where
  Before : ℝ
  After : ℝ
  Pull : ℝ

/-- Modelled from the spec: `APLCON::Result_t`, with `Variables` as the list of
the map entries in iteration order. -/
structure Result_t where
  Variables : List (String × Result_Variable_t)
  ChiSquare : ℝ
  Probability : ℝ
  NIterations : ℕ
  Status : Result_Status_t

/-- What `fitter.DoFit()` leaves behind: the result and the linked variables,
which the fitter rewrites in place. -/
structure FitOutcome where
  result : Result_t
  beam : FitParticle
  proton : FitParticle
  photons : List FitParticle

/-- The compile-time constants of the class that `ProcessEvent` consults; they
are declared in the header, which is not in the sources. -/
structure Config where
  nPhotons : ℕ
  includeVertexFit : Bool

/-- The collaborators of `ProcessEvent` that are not in the sources: the draw
from the random generator, `FitParticle::SetFromVector`, the fitter and the
printed names of `ParticleTypeDatabase::DetectableTypes()`. -/
structure Env (G : Type) where
  gauss : ℝ → ℝ → G → ℝ × G
  SetFromVector : FitParticle → TLorentzVector → FitParticle
  DoFit : FitParticle → FitParticle → List FitParticle → FitOutcome
  DetectableTypes : List String

/-- The data members of `TestAPLCON` that `ProcessEvent` reads or writes: the
linked particles, the generator, the histograms, and a count of the calls of
`fitter.DoFit()`. -/
structure State (G : Type) where
  beam : FitParticle
  proton : FitParticle
  photons : List FitParticle
  generator : G
  banana : List (ℝ × ℝ)
  particles : List String
  tagger : List ℝ
  ntagged : List ℝ
  cbesum : List ℝ
  numParticleType : List (String × List ℝ)
  pulls : List (String × List ℝ)
  chisquare : List ℝ
  probability : List ℝ
  iterations : List ℝ
  im_true : List ℝ
  im_smeared : List ℝ
  im_fit : List ℝ
  vertex_z_before : List ℝ
  vertex_z_after : List ℝ
  fitCalls : ℕ

/-- The diagnostic metrics of the spec: the pulls per variable name, chi-square,
probability, iterations, vertex before and after, and the three invariant-mass
distributions. -/
structure Diagnostics where
  pulls : List (String × List ℝ)
  chisquare : List ℝ
  probability : List ℝ
  iterations : List ℝ
  vertex_z_before : List ℝ
  vertex_z_after : List ℝ
  im_true : List ℝ
  im_smeared : List ℝ
  im_fit : List ℝ

/-- The diagnostic metrics held in a state. -/
def State.diagnostics {G : Type} (s : State G) : Diagnostics :=
  { pulls := s.pulls, chisquare := s.chisquare, probability := s.probability,
    iterations := s.iterations, vertex_z_before := s.vertex_z_before,
    vertex_z_after := s.vertex_z_after, im_true := s.im_true, im_smeared := s.im_smeared,
    im_fit := s.im_fit }

/-- `FillIM(h, photons)`: one entry, the invariant mass of the photons. -/
noncomputable def FillIM (h : List ℝ) (photons : List FitParticle) : List ℝ :=
  h ++ [(SumPhotons (photons.map FitParticle.toVector)).M]

/-- The call `m.at(key)->Fill(v)` on a map of histograms: `none` stands for the
`std::out_of_range` that `at` throws when the key is missing. -/
def fillAt : List (String × List ℝ) → String → ℝ → Option (List (String × List ℝ))
  | [], _, _ => none
  | (k, h) :: rest, key, v =>
    if k = key then some ((k, h ++ [v]) :: rest)
    else (fillAt rest key v).map (fun m => (k, h) :: m)

/-- One round of the loop over `event.MCTrue()`, on the triple (proton,
photons, foundPhotons). -/
def findStep (SetFromVector : FitParticle → TLorentzVector → FitParticle) (nPhotons : ℕ)
    (acc : FitParticle × List FitParticle × ℕ) (p : MCParticle) :
    FitParticle × List FitParticle × ℕ :=
  if p.type = ParticleType.Proton then (SetFromVector acc.1 p.p4, acc.2.1, acc.2.2)
  else if acc.2.2 < nPhotons ∧ p.type = ParticleType.Photon then
    (acc.1, acc.2.1.modify (fun q => SetFromVector q p.p4) acc.2.2, acc.2.2 + 1)
  else acc

/-- The loop `for(auto& photon : photons) photon.Smear();`. -/
noncomputable def SmearAll {G : Type} (gauss : ℝ → ℝ → G → ℝ × G) :
    List FitParticle → G → List FitParticle × G
  | [], g => ([], g)
  | p :: rest, g =>
    let r := Smear gauss p g
    let rs := SmearAll gauss rest r.2
    (r.1 :: rs.1, rs.2)

/-- The head of the body of the tagger-hit loop (source lines 257 to 269): the
tagger spectrum is filled and the true particles are searched. It returns the
state and `foundPhotons`. -/
def extract {G : Type} (env : Env G) (cfg : Config) (MCTrue : List MCParticle) (s : State G)
    (taggerhit : TaggerHit) : State G × ℕ :=
  let s := { s with tagger := s.tagger ++ [taggerhit.PhotonEnergy] }
  let found := MCTrue.foldl (findStep env.SetFromVector cfg.nPhotons) (s.proton, s.photons, 0)
  ({ s with proton := found.1, photons := found.2.1 }, found.2.2)

/-- Source lines 273 to 283: the beam is set, the true invariant mass is
recorded, proton, photons and beam are smeared in this order, and the smeared
invariant mass is recorded. -/
noncomputable def beforeFit {G : Type} (env : Env G) (s : State G) (taggerhit : TaggerHit) :
    State G :=
  let s := { s with beam := env.SetFromVector s.beam taggerhit.PhotonBeam }
  let s := { s with im_true := FillIM s.im_true s.photons }
  let r_proton := Smear env.gauss s.proton s.generator
  let r_photons := SmearAll env.gauss s.photons r_proton.2
  let r_beam := Smear env.gauss s.beam r_photons.2
  let s := { s with proton := r_proton.1, photons := r_photons.1, beam := r_beam.1,
                    generator := r_beam.2 }
  { s with im_smeared := FillIM s.im_smeared s.photons }

/-- The call `fitter.DoFit()` on the linked particles of a state. -/
def callFit {G : Type} (env : Env G) (s : State G) : FitOutcome :=
  env.DoFit s.beam s.proton s.photons

/-- Source lines 295 to 309, after a successful fit: pulls, chi-square,
probability and iterations are filled, then the vertex histograms when the
vertex fit is included, then the fitted invariant mass. -/
noncomputable def recordFit {G : Type} (cfg : Config) (s : State G) (result : Result_t) :
    Option (State G) := do
  let pulls ← result.Variables.foldlM (fun pulls it => fillAt pulls it.1 it.2.Pull) s.pulls
  let s := { s with pulls := pulls
                    chisquare := s.chisquare ++ [result.ChiSquare]
                    probability := s.probability ++ [result.Probability]
                    iterations := s.iterations ++ [(result.NIterations : ℝ)] }
  let s ←
    if cfg.includeVertexFit then
      (result.Variables.lookup "v_z").map fun v =>
        { s with vertex_z_after := s.vertex_z_after ++ [v.After]
                 vertex_z_before := s.vertex_z_before ++ [v.Before] }
    else some s
  some { s with im_fit := FillIM s.im_fit s.photons }

/-- The body of the loop over `event.TaggerHits()`; `none` stands for an
exception that leaves `ProcessEvent`. -/
noncomputable def processTaggerHit {G : Type} (env : Env G) (cfg : Config)
    (MCTrue : List MCParticle) (s : State G) (taggerhit : TaggerHit) : Option (State G) :=
  let found := extract env cfg MCTrue s taggerhit
  if found.2 ≠ cfg.nPhotons then some found.1
  else
    let s := beforeFit env found.1 taggerhit
    let out := callFit env s
    let s := { s with beam := out.beam, proton := out.proton, photons := out.photons,
                      fitCalls := s.fitCalls + 1 }
    if out.result.Status ≠ Result_Status_t.Success then some s
    else recordFit cfg s out.result

/-- The loop over `event.TaggerHits()`. -/
noncomputable def taggerLoop {G : Type} (env : Env G) (cfg : Config) (MCTrue : List MCParticle) :
    State G → List TaggerHit → Option (State G)
  | s, [] => some s
  | s, taggerhit :: rest =>
    match processTaggerHit env cfg MCTrue s taggerhit with
    | none => none
    | some s => taggerLoop env cfg MCTrue s rest

/-- The loop over `DetectableTypes()`: a type without a histogram is passed
over, as the `catch (...)` of the source does. -/
def fillParticleTypes (count : String → ℕ) :
    List String → List (String × List ℝ) → List (String × List ℝ)
  | [], m => m
  | t :: rest, m =>
    fillParticleTypes count rest ((fillAt m t (count t : ℝ)).getD m)

/-- `TestAPLCON::ProcessEvent(event)`. -/
noncomputable def ProcessEvent {G : Type} (env : Env G) (cfg : Config) (s : State G)
    (event : Event) : Option (State G) :=
  let s := { s with banana := s.banana ++ event.Tracks }
  let s := { s with particles := s.particles ++ event.Particles }
  let s := { s with ntagged := s.ntagged ++ [(event.TaggerHits.length : ℝ)] }
  let s := { s with cbesum := s.cbesum ++ [event.CBEenergySum] }
  let s := { s with numParticleType :=
    fillParticleTypes event.ParticleTypeCount env.DetectableTypes s.numParticleType }
  taggerLoop env cfg event.MCTrue s event.TaggerHits


/-! ## Concrete data for the closed statements -/

/-- A particle with all six fields zero. -/
def zeroParticle : FitParticle := ⟨0, 0, 0, 0, 0, 0⟩

/-- Collaborators with a fitter that never converges: every draw is `0`,
`SetFromVector` leaves the particle alone, and `DoFit` reports failure kind 1
with no variables and leaves the linked particles alone. -/
def failingEnv : Env Unit where
  gauss := fun _ _ g => (0, g)
  SetFromVector := fun q _ => q
  DoFit := fun beam proton photons =>
    { result := ⟨[], 0, 0, 50, Result_Status_t.Failure 1⟩, beam := beam, proton := proton,
      photons := photons }
  DetectableTypes := []

/-- One photon slot and every histogram empty. -/
def emptyState : State Unit where
  beam := zeroParticle
  proton := zeroParticle
  photons := [zeroParticle]
  generator := ()
  banana := []
  particles := []
  tagger := []
  ntagged := []
  cbesum := []
  numParticleType := []
  pulls := []
  chisquare := []
  probability := []
  iterations := []
  im_true := []
  im_smeared := []
  im_fit := []
  vertex_z_before := []
  vertex_z_after := []
  fitCalls := 0

/-- A true-particle list with a proton and one photon. -/
def onePhotonTruth : List MCParticle :=
  [⟨ParticleType.Proton, ⟨0, 0, 0, 1⟩⟩, ⟨ParticleType.Photon, ⟨0, 0, 1, 1⟩⟩]

/-- A tagger hit of beam energy 1. -/
def unitHit : TaggerHit := ⟨1, ⟨0, 0, 1, 1⟩⟩

/-! ## Theorems -/

/-! ### Helper lemmas -/

/-- The arctangent recovers the angle of a point given in polar form. -/
theorem atan2_polar (r θ : ℝ) (hr : 0 < r) (hθ : θ ∈ Set.Ioc (-Real.pi) Real.pi) :
    atan2 (r * Real.sin θ) (r * Real.cos θ) = θ := by
  have h : (⟨r * Real.cos θ, r * Real.sin θ⟩ : ℂ)
      = (r : ℂ) * (Complex.cos θ + Complex.sin θ * Complex.I) := by
    apply Complex.ext
    · simp [← Complex.ofReal_cos, ← Complex.ofReal_sin]
    · simp [← Complex.ofReal_cos, ← Complex.ofReal_sin]
  rw [atan2, h, Complex.arg_mul_cos_add_sin_mul_I hr hθ]

/-- The four components of `Make` on a full parameter triple. -/
theorem Make_components (Ek Theta Phi m : ℝ) :
    Make [Ek, Theta, Phi] m =
      ⟨Real.sqrt ((Ek + m) * (Ek + m) - m * m) * Real.sin Theta * Real.cos Phi,
        Real.sqrt ((Ek + m) * (Ek + m) - m * m) * Real.sin Theta * Real.sin Phi,
        Real.sqrt ((Ek + m) * (Ek + m) - m * m) * Real.cos Theta, Ek + m⟩ := by
  simp only [Make, SetMagThetaPhi, TLorentzVector.ofVect,
      List.getD_cons_zero, List.getD_cons_succ, abs_of_nonneg (Real.sqrt_nonneg _)]

/-- The subtraction loop of `EnergyMomentumBalance` subtracts the sum. -/
theorem foldl_sub_eq (ps : List (List ℝ)) (d : TLorentzVector) :
    ps.foldl (fun d p => d.sub (Make p PhotonMass)) d
      = d.sub (sumVectors (ps.map fun p => Make p 0)) := by
  induction ps generalizing d with
  | nil => simp [sumVectors, TLorentzVector.sub, TLorentzVector.zero]
  | cons p ps ih =>
    rw [List.foldl_cons, ih]
    simp only [List.map_cons, sumVectors, TLorentzVector.sub, TLorentzVector.add, PhotonMass,
      TLorentzVector.mk.injEq]
    refine ⟨?_, ?_, ?_, ?_⟩ <;> ring

/-- The calorimeter radius is positive. -/
theorem R_pos : 0 < R := by unfold R; norm_num

/-- With the vertex at the origin the corrected angle is the angle itself. -/
theorem theta_p_zero (θ : ℝ) (hθ : θ ∈ Set.Ioc (-Real.pi) Real.pi) : theta_p 0 θ = θ := by
  rw [theta_p, sub_zero]
  exact atan2_polar R θ R_pos hθ

/-- A list of three numbers is its three entries. -/
theorem eq_triple (p : List ℝ) (h : p.length = 3) :
    p = [p.getD 0 0, p.getD 1 0, p.getD 2 0] := by
  obtain ⟨a, b, c, rfl⟩ := List.length_eq_three.mp h
  rfl

/-- What the loop of `VertexConstraint` leaves behind, on well-formed photons. -/
theorem VertexLoop_eq (v_z : ℝ) (photons : List (List ℝ)) (sum : TLorentzVector)
    (h : ∀ p ∈ photons, p.length = 3) :
    VertexLoop v_z photons sum =
      (photons.map (fun p => [p.getD 0 0, theta_p v_z (p.getD 1 0), p.getD 2 0]),
        (photons.map (fun p => [p.getD 0 0, theta_p v_z (p.getD 1 0), p.getD 2 0])).foldl
          (fun sum p => sum.add (Make p PhotonMass)) sum) := by
  induction photons generalizing sum with
  | nil => rfl
  | cons p ps ih =>
    have hp : p.length = 3 := h p (List.mem_cons_self _ _)
    obtain ⟨a, b, c, rfl⟩ := List.length_eq_three.mp hp
    have ih2 := fun s => ih s (fun q hq => h q (List.mem_cons_of_mem _ hq))
    simp only [VertexLoop, ih2, List.map_cons, List.foldl_cons]
    rfl

/-- The fallback value is never the value of the regular branch. -/
theorem fallback_ne_regular (θ : ℝ) : 1 * DegToRad ≠ 2.5 * DegToRad / Real.sin θ := by
  have hd : 0 < DegToRad := by unfold DegToRad; positivity
  intro h
  by_cases hs : Real.sin θ = 0
  · rw [hs, div_zero] at h
    linarith
  · rw [eq_div_iff hs] at h
    have h1 : Real.sin θ = 2.5 := by
      have : DegToRad * Real.sin θ = DegToRad * 2.5 := by linarith
      exact mul_left_cancel₀ hd.ne' this
    have := Real.sin_le_one θ
    rw [h1] at this
    norm_num at this

/-- The loop over the true particles finds at most as many photons as there are. -/
theorem foldl_findStep_found (SetFromVector : FitParticle → TLorentzVector → FitParticle)
    (nPhotons : ℕ) (ps : List MCParticle) (acc : FitParticle × List FitParticle × ℕ) :
    (ps.foldl (findStep SetFromVector nPhotons) acc).2.2
      ≤ acc.2.2 + ps.countP (fun p => p.type = ParticleType.Photon) := by
  induction ps generalizing acc with
  | nil => simp
  | cons p ps ih =>
    rw [List.foldl_cons, List.countP_cons]
    refine (ih _).trans ?_
    unfold findStep
    split_ifs with h1 h2 h3 h4 h5
    all_goals simp_all
    all_goals omega

/-- A tagger hit whose search does not find `nPhotons` photons only fills the
tagger spectrum and rewrites the proton and photon slots. -/
theorem processTaggerHit_skip {G : Type} (env : Env G) (cfg : Config)
    (MCTrue : List MCParticle) (s : State G) (taggerhit : TaggerHit)
    (h : (extract env cfg MCTrue s taggerhit).2 ≠ cfg.nPhotons) :
    processTaggerHit env cfg MCTrue s taggerhit = some (extract env cfg MCTrue s taggerhit).1 := by
  simp only [processTaggerHit, if_pos h]

/-- A tagger hit whose fit is called and does not succeed ends in the state
right after the fit. -/
theorem processTaggerHit_failure {G : Type} (env : Env G) (cfg : Config)
    (MCTrue : List MCParticle) (s : State G) (taggerhit : TaggerHit)
    (h1 : (extract env cfg MCTrue s taggerhit).2 = cfg.nPhotons)
    (h2 : (callFit env (beforeFit env (extract env cfg MCTrue s taggerhit).1
      taggerhit)).result.Status ≠ Result_Status_t.Success) :
    processTaggerHit env cfg MCTrue s taggerhit =
      some { beforeFit env (extract env cfg MCTrue s taggerhit).1 taggerhit with
        beam := (callFit env (beforeFit env (extract env cfg MCTrue s taggerhit).1
          taggerhit)).beam
        proton := (callFit env (beforeFit env (extract env cfg MCTrue s taggerhit).1
          taggerhit)).proton
        photons := (callFit env (beforeFit env (extract env cfg MCTrue s taggerhit).1
          taggerhit)).photons
        fitCalls := (beforeFit env (extract env cfg MCTrue s taggerhit).1
          taggerhit).fitCalls + 1 } := by
  simp only [processTaggerHit, h1, ne_eq, not_true_eq_false, if_false, h2, not_false_eq_true,
    if_true]

/-! ### The claims -/

/-- C1: for Ek >= 0 and m >= 0, Make returns energy Ek + m and momentum
p (sin Theta cos Phi, sin Theta sin Phi, cos Theta) with p = sqrt(E^2 - m^2);
the result is on-shell, and for m = 0 the momentum magnitude is Ek. -/
theorem Make_fourMomentum (Ek Theta Phi m : ℝ) (hEk : 0 ≤ Ek) (hm : 0 ≤ m) :
    Make [Ek, Theta, Phi] m =
        ⟨Real.sqrt ((Ek + m) ^ 2 - m ^ 2) * (Real.sin Theta * Real.cos Phi),
          Real.sqrt ((Ek + m) ^ 2 - m ^ 2) * (Real.sin Theta * Real.sin Phi),
          Real.sqrt ((Ek + m) ^ 2 - m ^ 2) * Real.cos Theta, Ek + m⟩ ∧
      (Make [Ek, Theta, Phi] m).E ^ 2 - (Make [Ek, Theta, Phi] m).P2 = m ^ 2 ∧
      (m = 0 → Real.sqrt ((Make [Ek, Theta, Phi] m).P2) = Ek) := by
  have hrad : 0 ≤ (Ek + m) ^ 2 - m ^ 2 := by nlinarith [mul_nonneg hEk hm]
  have hsq : Real.sqrt ((Ek + m) ^ 2 - m ^ 2) ^ 2 = (Ek + m) ^ 2 - m ^ 2 :=
    Real.sq_sqrt hrad
  have hP2 : (Make [Ek, Theta, Phi] m).P2 = (Ek + m) ^ 2 - m ^ 2 := by
    simp only [Make, SetMagThetaPhi, TLorentzVector.ofVect, TLorentzVector.P2,
      List.getD_cons_zero, List.getD_cons_succ]
    rw [← pow_two (Ek + m), ← pow_two m, abs_of_nonneg (Real.sqrt_nonneg _)]
    have h1 := Real.sin_sq_add_cos_sq Theta
    have h2 := Real.sin_sq_add_cos_sq Phi
    have e : ∀ s st ct sp cp : ℝ, st ^ 2 + ct ^ 2 = 1 → sp ^ 2 + cp ^ 2 = 1 →
        s * st * cp * (s * st * cp) + s * st * sp * (s * st * sp) + s * ct * (s * ct)
          = s ^ 2 := by
      intro s st ct sp cp h1 h2
      have : s * st * cp * (s * st * cp) + s * st * sp * (s * st * sp) + s * ct * (s * ct)
          = s ^ 2 * (st ^ 2 * (sp ^ 2 + cp ^ 2) + ct ^ 2) := by ring
      rw [this, h2, mul_one, h1, mul_one]
    rw [e _ _ _ _ _ h1 h2, hsq]
  refine ⟨?_, ?_, ?_⟩
  · simp only [Make, SetMagThetaPhi, TLorentzVector.ofVect,
      List.getD_cons_zero, List.getD_cons_succ]
    rw [← pow_two (Ek + m), ← pow_two m, abs_of_nonneg (Real.sqrt_nonneg _)]
    simp only [mul_assoc]
  · rw [hP2]
    simp only [Make, TLorentzVector.ofVect, TLorentzVector.E, List.getD_cons_zero]
    ring
  · intro h0
    rw [hP2, h0]
    simp only [add_zero, ne_eq, OfNat.ofNat_ne_zero, not_false_eq_true, zero_pow, sub_zero]
    exact Real.sqrt_sq hEk

/-- C1, at the proton-like input Ek = 3, Theta = 1, Phi = 2, m = 4. -/
theorem Make_fourMomentum_witness :
    Make [3, 1, 2] 4 =
        ⟨Real.sqrt ((3 + 4) ^ 2 - 4 ^ 2) * (Real.sin 1 * Real.cos 2),
          Real.sqrt ((3 + 4) ^ 2 - 4 ^ 2) * (Real.sin 1 * Real.sin 2),
          Real.sqrt ((3 + 4) ^ 2 - 4 ^ 2) * Real.cos 1, 3 + 4⟩ ∧
      (Make [3, 1, 2] 4).E ^ 2 - (Make [3, 1, 2] 4).P2 = 4 ^ 2 ∧
      ((4 : ℝ) = 0 → Real.sqrt ((Make [3, 1, 2] 4).P2) = 3) :=
  Make_fourMomentum 3 1 2 4 (by norm_num) (by norm_num)

/-- C2: round trip. For Ek > 0, mass >= 0, Theta in (0, pi) and Phi in
(-pi, pi], decomposing the 4-momentum built by Make into kinetic energy (E
minus mass), polar angle and azimuth gives back exactly Ek, Theta and Phi. -/
theorem AssignFromTruth_Make (particle : FitParticle) (Ek Theta Phi mass : ℝ)
    (hEk : 0 < Ek) (hm : 0 ≤ mass) (hT0 : 0 < Theta) (hT1 : Theta < Real.pi)
    (hP0 : -Real.pi < Phi) (hP1 : Phi ≤ Real.pi) :
    (AssignFromTruth particle (Make [Ek, Theta, Phi] mass) mass).Ek = Ek ∧
      (AssignFromTruth particle (Make [Ek, Theta, Phi] mass) mass).Theta = Theta ∧
      (AssignFromTruth particle (Make [Ek, Theta, Phi] mass) mass).Phi = Phi := by
  have hrad : 0 < (Ek + mass) * (Ek + mass) - mass * mass := by
    nlinarith [mul_nonneg hEk.le hm, mul_pos hEk hEk]
  have hp : 0 < Real.sqrt ((Ek + mass) * (Ek + mass) - mass * mass) := Real.sqrt_pos.mpr hrad
  have hs : 0 < Real.sin Theta := Real.sin_pos_of_pos_of_lt_pi hT0 hT1
  have hps := mul_pos hp hs
  set p := Real.sqrt ((Ek + mass) * (Ek + mass) - mass * mass) with hpdef
  have hperp : (Make [Ek, Theta, Phi] mass).Perp = p * Real.sin Theta := by
    rw [Make_components, TLorentzVector.Perp]
    have : p * Real.sin Theta * Real.cos Phi * (p * Real.sin Theta * Real.cos Phi) +
        p * Real.sin Theta * Real.sin Phi * (p * Real.sin Theta * Real.sin Phi)
        = (p * Real.sin Theta) ^ 2 * (Real.sin Phi ^ 2 + Real.cos Phi ^ 2) := by ring
    rw [this, Real.sin_sq_add_cos_sq, mul_one, Real.sqrt_sq hps.le]
  have hxy : ¬ ((Make [Ek, Theta, Phi] mass).X = 0 ∧ (Make [Ek, Theta, Phi] mass).Y = 0) := by
    rw [Make_components]
    rintro ⟨hx, hy⟩
    simp only at hx hy
    have hc : Real.cos Phi = 0 := by
      rcases mul_eq_zero.mp hx with h | h
      · exact absurd h hps.ne'
      · exact h
    have hsn : Real.sin Phi = 0 := by
      rcases mul_eq_zero.mp hy with h | h
      · exact absurd h hps.ne'
      · exact h
    have := Real.sin_sq_add_cos_sq Phi
    rw [hc, hsn] at this
    norm_num at this
  refine ⟨?_, ?_, ?_⟩
  · simp [AssignFromTruth, Make_components, TLorentzVector.E]
  · have h3 : ¬ ((Make [Ek, Theta, Phi] mass).X = 0 ∧ (Make [Ek, Theta, Phi] mass).Y = 0 ∧
        (Make [Ek, Theta, Phi] mass).Z = 0) := fun h => hxy ⟨h.1, h.2.1⟩
    simp only [AssignFromTruth, TLorentzVector.Theta, if_neg h3, hperp]
    rw [Make_components]
    exact atan2_polar p Theta hp ⟨by linarith, hT1.le⟩
  · simp only [AssignFromTruth, TLorentzVector.Phi, if_neg hxy]
    rw [Make_components]
    simp only
    rw [mul_comm _ (Real.sin Phi), mul_comm _ (Real.cos Phi), mul_comm (Real.sin Phi),
      mul_comm (Real.cos Phi)]
    exact atan2_polar _ Phi hps ⟨hP0, hP1⟩

/-- C2, at Ek = 300, Theta = 1, Phi = 3 for a particle of mass 938. -/
theorem AssignFromTruth_Make_witness :
    (AssignFromTruth ⟨0, 0, 0, 0, 0, 0⟩ (Make [300, 1, 3] 938) 938).Ek = 300 ∧
      (AssignFromTruth ⟨0, 0, 0, 0, 0, 0⟩ (Make [300, 1, 3] 938) 938).Theta = 1 ∧
      (AssignFromTruth ⟨0, 0, 0, 0, 0, 0⟩ (Make [300, 1, 3] 938) 938).Phi = 3 :=
  AssignFromTruth_Make ⟨0, 0, 0, 0, 0, 0⟩ 300 1 3 938 (by norm_num) (by norm_num)
    (by norm_num) (by linarith [Real.pi_gt_three]) (by linarith [Real.pi_gt_three])
    (by linarith [Real.pi_gt_three])

/-- C3: for N >= 1 photons and parameter lists with all Ek >= 0, the
EnergyMomentumBalance residual is, component by component, the incoming
4-momentum (target at rest plus beam) minus the outgoing one (proton plus all
photons); when the two are equal the residual is (0, 0, 0, 0). -/
theorem EnergyMomentumBalance_residual (beam proton : List ℝ) (photons : List (List ℝ))
    (_hN : 1 ≤ photons.length)
    (_hEk : ∀ p ∈ beam :: proton :: photons, p.length = 3 ∧ 0 ≤ p.getD 0 0) :
    EnergyMomentumBalance (beam :: proton :: photons) =
        [((TLorentzVector.mk 0 0 0 ProtonMass).add (Make beam 0)).X -
            ((Make proton ProtonMass).add (sumVectors (photons.map fun p => Make p 0))).X,
          ((TLorentzVector.mk 0 0 0 ProtonMass).add (Make beam 0)).Y -
            ((Make proton ProtonMass).add (sumVectors (photons.map fun p => Make p 0))).Y,
          ((TLorentzVector.mk 0 0 0 ProtonMass).add (Make beam 0)).Z -
            ((Make proton ProtonMass).add (sumVectors (photons.map fun p => Make p 0))).Z,
          ((TLorentzVector.mk 0 0 0 ProtonMass).add (Make beam 0)).T -
            ((Make proton ProtonMass).add (sumVectors (photons.map fun p => Make p 0))).T] ∧
      ((TLorentzVector.mk 0 0 0 ProtonMass).add (Make beam 0) =
          (Make proton ProtonMass).add (sumVectors (photons.map fun p => Make p 0)) →
        EnergyMomentumBalance (beam :: proton :: photons) = [0, 0, 0, 0]) := by
  have key : EnergyMomentumBalance (beam :: proton :: photons) =
        [((TLorentzVector.mk 0 0 0 ProtonMass).add (Make beam 0)).X -
            ((Make proton ProtonMass).add (sumVectors (photons.map fun p => Make p 0))).X,
          ((TLorentzVector.mk 0 0 0 ProtonMass).add (Make beam 0)).Y -
            ((Make proton ProtonMass).add (sumVectors (photons.map fun p => Make p 0))).Y,
          ((TLorentzVector.mk 0 0 0 ProtonMass).add (Make beam 0)).Z -
            ((Make proton ProtonMass).add (sumVectors (photons.map fun p => Make p 0))).Z,
          ((TLorentzVector.mk 0 0 0 ProtonMass).add (Make beam 0)).T -
            ((Make proton ProtonMass).add (sumVectors (photons.map fun p => Make p 0))).T] := by
    simp only [EnergyMomentumBalance, List.getD_cons_zero, List.getD_cons_succ,
      List.drop_succ_cons, List.drop_zero, foldl_sub_eq]
    simp only [TLorentzVector.sub, TLorentzVector.add, PhotonMass, List.cons.injEq, and_true]
    refine ⟨?_, ?_, ?_, ?_⟩ <;> ring
  refine ⟨key, fun h => ?_⟩
  rw [key, h]
  simp

/-- C3, at a beam photon of energy 1 along the axis that leaves the proton at
rest and goes on as the single outgoing photon. -/
theorem EnergyMomentumBalance_residual_witness :
    EnergyMomentumBalance [[1, 0, 0], [0, 0, 0], [1, 0, 0]] = [0, 0, 0, 0] :=
  (EnergyMomentumBalance_residual [1, 0, 0] [0, 0, 0] [[1, 0, 0]] (by simp)
    (by
      intro p hp
      simp only [List.mem_cons, List.mem_singleton, List.not_mem_nil, or_false] at hp
      rcases hp with rfl | rfl | rfl <;> simp)).2
    (by
      simp [Make_components, sumVectors, TLorentzVector.add, TLorentzVector.zero])

/-- C4: with R = 25.4 and v_z = 0 the corrected angle of VertexConstraint equals
theta for every theta in (0, pi), and for photons with such polar angles the
VertexConstraint residual at v_z = 0 is the RequireIM residual of the
uncorrected photons: their invariant mass minus IM. -/
theorem VertexConstraint_vz_zero :
    (∀ θ : ℝ, 0 < θ → θ < Real.pi → theta_p 0 θ = θ) ∧
      ∀ (IM : ℝ) (photons : List (List ℝ)),
        (∀ p ∈ photons, p.length = 3 ∧ 0 < p.getD 1 0 ∧ p.getD 1 0 < Real.pi) →
          (VertexConstraint IM (photons ++ [[0]])).1 = RequireIM IM photons := by
  refine ⟨fun θ h0 h1 => theta_p_zero θ ⟨by linarith [Real.pi_pos], h1.le⟩, ?_⟩
  intro IM photons h
  have hmap : photons.map (fun p => [p.getD 0 0, theta_p 0 (p.getD 1 0), p.getD 2 0])
      = photons := by
    conv_rhs => rw [← List.map_id photons]
    apply List.map_congr_left
    intro p hp
    obtain ⟨h3, h0, h1⟩ := h p hp
    rw [theta_p_zero _ ⟨by linarith [Real.pi_pos], h1.le⟩]
    exact (eq_triple p h3).symm
  simp only [VertexConstraint, List.getLastD_concat, List.dropLast_concat, List.getD_cons_zero,
    VertexLoop_eq 0 photons _ (fun p hp => (h p hp).1), hmap, RequireIM, SumPhotons]

/-- C4, at theta = 1 and the single photon (1, 1, 0). -/
theorem VertexConstraint_vz_zero_witness :
    theta_p 0 1 = 1 ∧
      (VertexConstraint 0 ([[1, 1, 0]] ++ [[0]])).1 = RequireIM 0 [[1, 1, 0]] :=
  ⟨VertexConstraint_vz_zero.1 1 (by norm_num) (by linarith [Real.pi_gt_three]),
    VertexConstraint_vz_zero.2 0 [[1, 1, 0]] (by
      intro p hp
      rw [List.mem_singleton] at hp
      subst hp
      refine ⟨rfl, ?_, ?_⟩
      · simp
      · simp only [List.getD_cons_succ, List.getD_cons_zero]
        linarith [Real.pi_gt_three])⟩

/-- C5: the sigmas that Smear assigns depend only on Ek and Theta before
smearing, whatever the random draws are. For Ek > 0, Ek_Sigma = 0.02 Ek^0.64,
Theta_Sigma = 2.5 pi / 180, Phi_Sigma = Theta_Sigma / sin(Theta) when Theta is
strictly between 20 and 160 degrees and pi / 180 otherwise; at 90 degrees
Phi_Sigma = Theta_Sigma. -/
theorem Smear_sigmas {G : Type} (gauss : ℝ → ℝ → G → ℝ × G) (p : FitParticle) (g : G)
    (hEk : 0 < p.Ek) :
    (Smear gauss p g).1.Ek_Sigma = 0.02 * p.Ek ^ (0.64 : ℝ) ∧
      (Smear gauss p g).1.Theta_Sigma = 2.5 * Real.pi / 180 ∧
      (20 * (Real.pi / 180) < p.Theta ∧ p.Theta < 160 * (Real.pi / 180) →
        (Smear gauss p g).1.Phi_Sigma = (2.5 * Real.pi / 180) / Real.sin p.Theta) ∧
      (¬ (20 * (Real.pi / 180) < p.Theta ∧ p.Theta < 160 * (Real.pi / 180)) →
        (Smear gauss p g).1.Phi_Sigma = Real.pi / 180) ∧
      (p.Theta = 90 * (Real.pi / 180) →
        (Smear gauss p g).1.Phi_Sigma = (Smear gauss p g).1.Theta_Sigma) := by
  have hpow : p.Ek * p.Ek ^ (-0.36 : ℝ) = p.Ek ^ (0.64 : ℝ) := by
    have h := Real.rpow_add hEk 1 (-0.36)
    rw [Real.rpow_one] at h
    rw [← h]
    norm_num
  have hreg : 20 * (Real.pi / 180) < p.Theta ∧ p.Theta < 160 * (Real.pi / 180) →
      (Smear gauss p g).1.Phi_Sigma = (2.5 * Real.pi / 180) / Real.sin p.Theta := by
    intro h
    have h' : p.Theta > 20 * DegToRad ∧ p.Theta < 160 * DegToRad := h
    simp only [Smear]
    rw [if_pos h']
    unfold DegToRad
    ring
  refine ⟨?_, ?_, hreg, ?_, ?_⟩
  · simp only [Smear]
    rw [mul_assoc, hpow]
  · simp only [Smear, DegToRad]
    ring
  · intro h
    have h' : ¬ (p.Theta > 20 * DegToRad ∧ p.Theta < 160 * DegToRad) := h
    simp only [Smear]
    rw [if_neg h', DegToRad, one_mul]
  · intro h
    have hpi := Real.pi_pos
    rw [hreg ⟨by rw [h]; linarith, by rw [h]; linarith⟩]
    have h2 : p.Theta = Real.pi / 2 := by rw [h]; ring
    rw [h2, Real.sin_pi_div_two, div_one]
    simp only [Smear, DegToRad]
    ring

/-- C5, at Ek = 1 and Theta = 1 with a generator that always draws 0. -/
theorem Smear_sigmas_witness :
    (Smear (fun _ _ (g : Unit) => ((0 : ℝ), g)) ⟨1, 1, 0, 0, 0, 0⟩ ()).1.Ek_Sigma
        = 0.02 * (1 : ℝ) ^ (0.64 : ℝ) ∧
      (Smear (fun _ _ (g : Unit) => ((0 : ℝ), g)) ⟨1, 1, 0, 0, 0, 0⟩ ()).1.Theta_Sigma
        = 2.5 * Real.pi / 180 ∧
      (Smear (fun _ _ (g : Unit) => ((0 : ℝ), g)) ⟨1, 1, 0, 0, 0, 0⟩ ()).1.Phi_Sigma
        = (2.5 * Real.pi / 180) / Real.sin 1 := by
  have h := Smear_sigmas (fun _ _ (g : Unit) => ((0 : ℝ), g)) ⟨1, 1, 0, 0, 0, 0⟩ ()
    (by norm_num)
  refine ⟨h.1, h.2.1, h.2.2.1 ⟨?_, ?_⟩⟩
  · show 20 * (Real.pi / 180) < (1 : ℝ)
    linarith [Real.pi_lt_d2]
  · show (1 : ℝ) < 160 * (Real.pi / 180)
    linarith [Real.pi_gt_three]

/-- C6 fails as stated: at Ek = -1 and m = 1 the energy 0 is below the mass,
and Make returns a 4-momentum of energy 0 with NaN momentum instead of raising
a domain error. -/
theorem Make_unguarded :
    (-1 : ℝ) + 1 < 1 ∧ MakeIEEE [-1, 0, 0] 1 = MakeOutcome.nanMomentum 0 ∧
      MakeIEEE [-1, 0, 0] 1 ≠ MakeOutcome.domainError := by
  have e : MakeIEEE [-1, 0, 0] 1 = MakeOutcome.nanMomentum 0 := by
    simp [MakeIEEE]
  refine ⟨by norm_num, e, ?_⟩
  rw [e]
  exact fun h => MakeOutcome.noConfusion h

/-- C6 as amended: Make never raises a domain error. When the radicand
E^2 - m^2 is negative it returns the energy Ek + m with NaN momentum, and when
the radicand is not negative it returns the regular 4-momentum. -/
theorem MakeIEEE_total (Ek Theta Phi m : ℝ) :
    MakeIEEE [Ek, Theta, Phi] m ≠ MakeOutcome.domainError ∧
      ((Ek + m) ^ 2 - m ^ 2 < 0 →
        MakeIEEE [Ek, Theta, Phi] m = MakeOutcome.nanMomentum (Ek + m)) ∧
      (0 ≤ (Ek + m) ^ 2 - m ^ 2 →
        MakeIEEE [Ek, Theta, Phi] m = MakeOutcome.regular (Make [Ek, Theta, Phi] m)) := by
  have hsq : (Ek + m) ^ 2 - m ^ 2 = (Ek + m) * (Ek + m) - m * m := by ring
  rw [hsq]
  refine ⟨?_, ?_, ?_⟩
  · simp only [MakeIEEE, List.getD_cons_zero]
    split <;> exact fun h => MakeOutcome.noConfusion h
  · intro h
    simp only [MakeIEEE, List.getD_cons_zero, if_pos h]
  · intro h
    simp only [MakeIEEE, List.getD_cons_zero, if_neg (not_lt.mpr h)]

/-- C6 as amended, at a negative radicand (Ek = -1, m = 1) and at a positive
one (Ek = 3, m = 4). -/
theorem MakeIEEE_total_witness :
    MakeIEEE [-1, 0, 0] 1 = MakeOutcome.nanMomentum (-1 + 1) ∧
      MakeIEEE [3, 0, 0] 4 = MakeOutcome.regular (Make [3, 0, 0] 4) :=
  ⟨(MakeIEEE_total (-1) 0 0 1).2.1 (by norm_num),
    (MakeIEEE_total 3 0 0 4).2.2 (by norm_num)⟩

/-- C7 as amended: VertexConstraint works in place on the list it receives by
reference. For an argument list of N well-formed photons followed by [v_z],
the list has N elements when the lambda returns, and every photon keeps its Ek
and Phi while its Theta is replaced by the corrected angle. -/
theorem VertexConstraint_in_place (IM v_z : ℝ) (photons : List (List ℝ))
    (h : ∀ p ∈ photons, p.length = 3) :
    (VertexConstraint IM (photons ++ [[v_z]])).2.length = photons.length ∧
      (VertexConstraint IM (photons ++ [[v_z]])).2 =
        photons.map (fun p => [p.getD 0 0, theta_p v_z (p.getD 1 0), p.getD 2 0]) := by
  simp only [VertexConstraint, List.getLastD_concat, List.dropLast_concat, List.getD_cons_zero,
    VertexLoop_eq v_z photons _ h, List.length_map, and_self]

/-- C7 as amended, at one photon (1, 1, 0) and v_z = 2. -/
theorem VertexConstraint_in_place_witness :
    (VertexConstraint 0 ([[1, 1, 0]] ++ [[2]])).2.length = 1 ∧
      (VertexConstraint 0 ([[1, 1, 0]] ++ [[2]])).2 = [[1, theta_p 2 1, 0]] :=
  VertexConstraint_in_place 0 2 [[1, 1, 0]] (by
    intro p hp
    rw [List.mem_singleton] at hp
    subst hp
    rfl)

/-- C7 fails as stated: called on the list of the photon (1, pi/2, 0) and
v_z = 1, VertexConstraint leaves a different list behind; it has one element
instead of two, and the photon's Theta is no longer pi/2. -/
theorem VertexConstraint_mutates_argument :
    (VertexConstraint 0 [[1, Real.pi / 2, 0], [1]]).2 ≠ [[1, Real.pi / 2, 0], [1]] ∧
      (VertexConstraint 0 [[1, Real.pi / 2, 0], [1]]).2.length = 1 ∧
      (((VertexConstraint 0 [[1, Real.pi / 2, 0], [1]]).2.getD 0 []).getD 1 0 ≠ Real.pi / 2) := by
  have e : (VertexConstraint 0 [[1, Real.pi / 2, 0], [1]]).2
      = [[1, theta_p 1 (Real.pi / 2), 0]] := rfl
  rw [e]
  refine ⟨by simp, rfl, ?_⟩
  simp only [List.getD_cons_zero, List.getD_cons_succ, theta_p, atan2, ne_eq,
    Complex.arg_eq_pi_div_two_iff, not_and]
  intro h0
  simp at h0

/-- C8 as amended: for a tagger hit whose fit is called and returns a status
other than Success, pulls, chi-square, probability, iterations, vertex before
and after and the fitted invariant mass are the same after the hit as before;
the true and the smeared invariant mass, which are filled before the fit, have
each received one entry. -/
theorem failed_fit_updates {G : Type} (env : Env G) (cfg : Config)
    (MCTrue : List MCParticle) (s : State G) (taggerhit : TaggerHit)
    (h1 : (extract env cfg MCTrue s taggerhit).2 = cfg.nPhotons)
    (h2 : (callFit env (beforeFit env (extract env cfg MCTrue s taggerhit).1
      taggerhit)).result.Status ≠ Result_Status_t.Success) :
    ∃ s', processTaggerHit env cfg MCTrue s taggerhit = some s' ∧
      s'.pulls = s.pulls ∧ s'.chisquare = s.chisquare ∧ s'.probability = s.probability ∧
      s'.iterations = s.iterations ∧ s'.vertex_z_before = s.vertex_z_before ∧
      s'.vertex_z_after = s.vertex_z_after ∧ s'.im_fit = s.im_fit ∧
      s'.im_true = FillIM s.im_true (extract env cfg MCTrue s taggerhit).1.photons ∧
      s'.im_smeared = FillIM s.im_smeared
        (beforeFit env (extract env cfg MCTrue s taggerhit).1 taggerhit).photons ∧
      s'.fitCalls = s.fitCalls + 1 :=
  ⟨_, processTaggerHit_failure env cfg MCTrue s taggerhit h1 h2,
    rfl, rfl, rfl, rfl, rfl, rfl, rfl, rfl, rfl, rfl⟩

/-- C8 as amended, at one true photon, nPhotons = 1 and a fitter that fails. -/
theorem failed_fit_updates_witness :
    ∃ s', processTaggerHit failingEnv ⟨1, false⟩ onePhotonTruth emptyState unitHit = some s' ∧
      s'.pulls = [] ∧ s'.chisquare = [] ∧ s'.im_fit = [] ∧ s'.im_true.length = 1 ∧
      s'.im_smeared.length = 1 ∧ s'.fitCalls = 1 := by
  obtain ⟨s', e, hp, hc, _, _, _, _, hf, ht, hs, hn⟩ :=
    failed_fit_updates failingEnv ⟨1, false⟩ onePhotonTruth emptyState unitHit
      (by decide) (by simp [callFit, failingEnv])
  refine ⟨s', e, hp, hc, hf, ?_, ?_, hn⟩
  · rw [ht]; simp [FillIM, emptyState]
  · rw [hs]; simp [FillIM, emptyState]

/-- C8 fails as stated: with one true photon, nPhotons = 1 and a fitter that
reports a failure, processing the tagger hit adds an entry to the true and to
the smeared invariant-mass distribution. -/
theorem failed_fit_fills_invariant_mass :
    (callFit failingEnv (beforeFit failingEnv
        (extract failingEnv ⟨1, false⟩ onePhotonTruth emptyState unitHit).1
        unitHit)).result.Status ≠ Result_Status_t.Success ∧
      ∃ s', processTaggerHit failingEnv ⟨1, false⟩ onePhotonTruth emptyState unitHit = some s' ∧
        s'.im_true ≠ emptyState.im_true ∧ s'.im_smeared ≠ emptyState.im_smeared ∧
        s'.diagnostics ≠ emptyState.diagnostics := by
  have h2 : (callFit failingEnv (beforeFit failingEnv
        (extract failingEnv ⟨1, false⟩ onePhotonTruth emptyState unitHit).1
        unitHit)).result.Status ≠ Result_Status_t.Success := by
    simp [callFit, failingEnv]
  refine ⟨h2, _, processTaggerHit_failure failingEnv ⟨1, false⟩ onePhotonTruth emptyState
    unitHit (by decide) h2, ?_, ?_, ?_⟩
  · simp [beforeFit, FillIM, emptyState]
  · simp [beforeFit, FillIM, emptyState]
  · intro h
    have := congrArg Diagnostics.im_true h
    simp [State.diagnostics, beforeFit, FillIM, emptyState] at this

/-- C9: when the true-particle list of an event holds fewer than nPhotons
photons, every tagger hit of the event is skipped: processing one hit, and
processing the whole event, ends without an exception, leaves every diagnostic
metric as it was and does not call the fit engine. -/
theorem fewer_photons_skipped {G : Type} (env : Env G) (cfg : Config) (event : Event)
    (h : event.MCTrue.countP (fun p => p.type = ParticleType.Photon) < cfg.nPhotons) :
    (∀ (s : State G) (taggerhit : TaggerHit), ∃ s',
        processTaggerHit env cfg event.MCTrue s taggerhit = some s' ∧
          s'.diagnostics = s.diagnostics ∧ s'.fitCalls = s.fitCalls) ∧
      ∀ s : State G, ∃ s',
        ProcessEvent env cfg s event = some s' ∧
          s'.diagnostics = s.diagnostics ∧ s'.fitCalls = s.fitCalls := by
  have hit : ∀ (s : State G) (taggerhit : TaggerHit), ∃ s',
      processTaggerHit env cfg event.MCTrue s taggerhit = some s' ∧
        s'.diagnostics = s.diagnostics ∧ s'.fitCalls = s.fitCalls := by
    intro s taggerhit
    have hne : (extract env cfg event.MCTrue s taggerhit).2 ≠ cfg.nPhotons := by
      have := foldl_findStep_found env.SetFromVector cfg.nPhotons event.MCTrue
        (s.proton, s.photons, 0)
      simp only [extract]
      simp only [zero_add] at this
      omega
    exact ⟨_, processTaggerHit_skip env cfg event.MCTrue s taggerhit hne, rfl, rfl⟩
  have loop : ∀ (hits : List TaggerHit) (s : State G), ∃ s',
      taggerLoop env cfg event.MCTrue s hits = some s' ∧
        s'.diagnostics = s.diagnostics ∧ s'.fitCalls = s.fitCalls := by
    intro hits
    induction hits with
    | nil => exact fun s => ⟨s, rfl, rfl, rfl⟩
    | cons t ts ih =>
      intro s
      obtain ⟨s1, e1, d1, f1⟩ := hit s t
      obtain ⟨s2, e2, d2, f2⟩ := ih s1
      refine ⟨s2, ?_, d2.trans d1, f2.trans f1⟩
      simp only [taggerLoop, e1, e2]
  refine ⟨hit, fun s => ?_⟩
  obtain ⟨s', e, d, f⟩ := loop event.TaggerHits
    { s with banana := s.banana ++ event.Tracks
             particles := s.particles ++ event.Particles
             ntagged := s.ntagged ++ [(event.TaggerHits.length : ℝ)]
             cbesum := s.cbesum ++ [event.CBEenergySum]
             numParticleType :=
               fillParticleTypes event.ParticleTypeCount env.DetectableTypes s.numParticleType }
  exact ⟨s', e, d, f⟩

/-- C9, at an event with one true photon, one tagger hit and nPhotons = 2. -/
theorem fewer_photons_skipped_witness :
    ∃ s', ProcessEvent failingEnv ⟨2, true⟩ emptyState
        ⟨[], [], [unitHit], 0, fun _ => 0, onePhotonTruth⟩ = some s' ∧
      s'.diagnostics = emptyState.diagnostics ∧ s'.fitCalls = emptyState.fitCalls :=
  (fewer_photons_skipped failingEnv ⟨2, true⟩
    ⟨[], [], [unitHit], 0, fun _ => 0, onePhotonTruth⟩ (by decide)).2 emptyState

/-- C10 fails as stated: at Theta exactly 20 degrees Smear takes the fallback
branch, so Phi_Sigma is pi / 180 and is not Theta_Sigma / sin(Theta). -/
theorem Smear_boundary_takes_fallback :
    (Smear (fun _ _ (g : Unit) => ((0 : ℝ), g))
        ⟨1, 20 * DegToRad, 0, 0, 0, 0⟩ ()).1.Phi_Sigma = 1 * DegToRad ∧
      (Smear (fun _ _ (g : Unit) => ((0 : ℝ), g))
        ⟨1, 20 * DegToRad, 0, 0, 0, 0⟩ ()).1.Phi_Sigma ≠
        (Smear (fun _ _ (g : Unit) => ((0 : ℝ), g))
          ⟨1, 20 * DegToRad, 0, 0, 0, 0⟩ ()).1.Theta_Sigma / Real.sin (20 * DegToRad) := by
  simp only [Smear, gt_iff_lt, lt_self_iff_false, false_and, if_false, true_and]
  exact fallback_ne_regular _

/-- C10 as amended: for Theta exactly 20 degrees or exactly 160 degrees the
fallback branch is taken; Phi_Sigma is the fallback pi / 180, which differs
from Theta_Sigma / sin(Theta). -/
theorem Smear_Phi_Sigma_boundary {G : Type} (gauss : ℝ → ℝ → G → ℝ × G) (p : FitParticle)
    (g : G) (h : p.Theta = 20 * (Real.pi / 180) ∨ p.Theta = 160 * (Real.pi / 180)) :
    (Smear gauss p g).1.Phi_Sigma = Real.pi / 180 ∧
      (Smear gauss p g).1.Phi_Sigma ≠ (Smear gauss p g).1.Theta_Sigma / Real.sin p.Theta := by
  have h' : ¬ (p.Theta > 20 * DegToRad ∧ p.Theta < 160 * DegToRad) := by
    unfold DegToRad
    rcases h with h | h <;> rw [h] <;> intro hc
    · exact lt_irrefl _ hc.1
    · exact lt_irrefl _ hc.2
  have e : (Smear gauss p g).1.Phi_Sigma = 1 * DegToRad := by
    simp only [Smear, if_neg h']
  refine ⟨by rw [e, DegToRad, one_mul], ?_⟩
  rw [e]
  exact fallback_ne_regular _

/-- C10 as amended, at Theta exactly 160 degrees. -/
theorem Smear_Phi_Sigma_boundary_witness :
    (Smear (fun _ _ (g : Unit) => ((0 : ℝ), g))
        ⟨1, 160 * (Real.pi / 180), 0, 0, 0, 0⟩ ()).1.Phi_Sigma = Real.pi / 180 :=
  (Smear_Phi_Sigma_boundary (fun _ _ (g : Unit) => ((0 : ℝ), g))
    ⟨1, 160 * (Real.pi / 180), 0, 0, 0, 0⟩ () (Or.inr rfl)).1

/-- For a positive kinetic energy the assigned `Ek_Sigma` is `0.02 * Ek ^ 0.64`,
whatever the generator draws. -/
theorem Smear_Ek_Sigma_eq {G : Type} (gauss : ℝ → ℝ → G → ℝ × G) (p : FitParticle) (g : G)
    (hEk : 0 < p.Ek) : (Smear gauss p g).1.Ek_Sigma = 0.02 * p.Ek ^ (0.64 : ℝ) := by
  have h := Real.rpow_add hEk 1 (-0.36)
  rw [Real.rpow_one] at h
  have hpow : p.Ek * p.Ek ^ (-0.36 : ℝ) = p.Ek ^ (0.64 : ℝ) := by
    rw [← h]
    norm_num
  simp only [Smear]
  rw [mul_assoc, hpow]

/-- C11 fails as stated: the Ek_Sigma assigned at Ek = 1 is 0.02 and is smaller
than, not greater than, the Ek_Sigma assigned at Ek = 2. -/
theorem Ek_Sigma_not_decreasing :
    (0 : ℝ) < 1 ∧ (1 : ℝ) < 2 ∧
      ¬ ((Smear (fun _ _ (g : Unit) => ((0 : ℝ), g)) ⟨1, 1, 0, 0, 0, 0⟩ ()).1.Ek_Sigma >
        (Smear (fun _ _ (g : Unit) => ((0 : ℝ), g)) ⟨2, 1, 0, 0, 0, 0⟩ ()).1.Ek_Sigma) := by
  refine ⟨by norm_num, by norm_num, ?_⟩
  rw [Smear_Ek_Sigma_eq _ _ _ (by norm_num : (0 : ℝ) < (⟨1, 1, 0, 0, 0, 0⟩ : FitParticle).Ek),
    Smear_Ek_Sigma_eq _ _ _ (by norm_num : (0 : ℝ) < (⟨2, 1, 0, 0, 0, 0⟩ : FitParticle).Ek)]
  have h : (1 : ℝ) ^ (0.64 : ℝ) < (2 : ℝ) ^ (0.64 : ℝ) :=
    Real.rpow_lt_rpow (by norm_num) (by norm_num) (by norm_num)
  simp only [gt_iff_lt, not_lt]
  linarith

/-- C11 as amended: the Ek_Sigma assigned by the uncertainty model,
0.02 * Ek * Ek^(-0.36), is a strictly increasing function of Ek on Ek > 0: for
all 0 < Ek1 < Ek2 the sigma assigned at Ek1 is smaller than the one assigned at
Ek2, whatever the generator draws. -/
theorem Ek_Sigma_strictly_increasing {G : Type} (gauss : ℝ → ℝ → G → ℝ × G)
    (p q : FitParticle) (g g' : G) (h1 : 0 < p.Ek) (h2 : p.Ek < q.Ek) :
    (Smear gauss p g).1.Ek_Sigma < (Smear gauss q g').1.Ek_Sigma := by
  rw [Smear_Ek_Sigma_eq gauss p g h1, Smear_Ek_Sigma_eq gauss q g' (h1.trans h2)]
  have h : p.Ek ^ (0.64 : ℝ) < q.Ek ^ (0.64 : ℝ) :=
    Real.rpow_lt_rpow h1.le h2 (by norm_num)
  linarith

/-- C11 as amended, at Ek = 100 against Ek = 300. -/
theorem Ek_Sigma_strictly_increasing_witness :
    (Smear (fun _ _ (g : Unit) => ((0 : ℝ), g)) ⟨100, 1, 0, 0, 0, 0⟩ ()).1.Ek_Sigma <
      (Smear (fun _ _ (g : Unit) => ((0 : ℝ), g)) ⟨300, 1, 0, 0, 0, 0⟩ ()).1.Ek_Sigma :=
  Ek_Sigma_strictly_increasing (fun _ _ (g : Unit) => ((0 : ℝ), g))
    ⟨100, 1, 0, 0, 0, 0⟩ ⟨300, 1, 0, 0, 0, 0⟩ () ()
    (by norm_num : (0 : ℝ) < 100) (by norm_num : (100 : ℝ) < 300)

end TestAPLCON
